import Mathlib

/-!
Verification of the LocalPip core engine (`src/core.py`, `src/app.py`)
against its natural-language specification.

The Python source is shallowly embedded: the artifact selector
(`DownloadManager._find_best_url`), the download-manager operations
(`start_download`, `add_to_queue`, `cancel_download`, `retry_download`,
`_download_task`) and the dependency resolver (`MainWindow._resolve_work`)
become executable Lean functions.  External collaborators (the `requests`
HTTP layer, the filesystem, wall-clock time and the `packaging` library)
are represented at their interface boundary: the filesystem is a map from
paths to file sizes, a network transfer is its observable outcome
(an error, or a content length plus a chunk sequence), and a parsed
dependency string is its parse/marker-evaluation outcome.
-/

namespace LocalPip

/-! ### String helpers

Python string operations used by the source, over `List Char` so that all
definitions reduce in the kernel. -/

/-- Test `listIsPre p l`: is `p` a leading segment of `l`?  (helper for `strContains`). -/
def listIsPre : List Char → List Char → Bool
  | [], _ => true
  | _ :: _, [] => false
  | a :: as, b :: bs => a == b && listIsPre as bs

/-- Occurrence of `pat` anywhere in `l` (helper for `strContains`). -/
def listOccurs (pat : List Char) : List Char → Bool
  | [] => pat.isEmpty
  | b :: bs => listIsPre pat (b :: bs) || listOccurs pat bs

/-- Python's substring test `pat in s`. -/
def strContains (s pat : String) : Bool :=
  listOccurs pat.data s.data

/-- Python's `str.lower()` (ASCII, as used for package names). -/
def strLower (s : String) : String :=
  ⟨s.data.map Char.toLower⟩

/-- Python's `python_version.replace('.', '')` from `_find_best_url`
(removing every occurrence of the single character `.`). -/
def pyVerShort (v : String) : String :=
  ⟨v.data.filter (fun c => c != '.')⟩

/-- All matches of the Python regex `cp(\d+)` in a character list:
left-to-right, non-overlapping, each capture a maximal digit run.
Mirrors `re.findall(r'cp(\d+)', filename)` in `core.py:_find_best_url`.
The `fuel` argument (initialized to the list length, which every
recursive call strictly decreases) keeps the recursion structural so that
the definition reduces in the kernel. -/
def cpMatchesAux : Nat → List Char → List String
  | 0, _ => []
  | fuel + 1, l =>
    match l with
    | [] => []
    | 'c' :: 'p' :: c :: rest =>
      if c.isDigit then
        (⟨(c :: rest).takeWhile Char.isDigit⟩ : String) ::
          cpMatchesAux fuel ((c :: rest).dropWhile Char.isDigit)
      else
        cpMatchesAux fuel ('p' :: c :: rest)
    | _ :: rest => cpMatchesAux fuel rest

/-- Evaluate `re.findall(r'cp(\d+)', s)`. -/
def cpMatches (s : String) : List String :=
  cpMatchesAux s.data.length s.data

/-! ### Data model (from `core.py`) -/

/-- The `core.py` `DownloadStatus` enum. -/
inductive DownloadStatus where
  | queued
  | downloading
  | completed
  | failed
  | paused
  | cancelled
  deriving DecidableEq, Repr, BEq

/-- One entry of `PackageInfo.urls`: an artifact record from the index
(the fields of the PyPI release JSON used by `_find_best_url` and
`add_to_queue`). -/
structure UrlEntry where
  filename : String
  url : String
  packagetype : String
  deriving DecidableEq, Repr, BEq

/-- Outcome of parsing one raw dependency requirement string with the
external `packaging` library and evaluating its optional environment
marker against the run's fixed environment (`Requirement(dep_string)` and
`req.marker.evaluate(environment)` in `app.py:_resolve_work`):
the parsed name together with the marker verdict (`markerOk = true` when
there is no marker, or the marker evaluates to true). -/
structure Dep where
  name : String
  markerOk : Bool
  deriving DecidableEq, Repr

/-- The `core.py` `PackageInfo` dataclass.  A dependency string is represented
by its parse outcome: `none` models a string on which `Requirement(...)`
(or the marker evaluation) raises — which `_resolve_work` catches and
skips. -/
structure PackageInfo where
  name : String
  version : String
  description : String
  author : String := "N/A"
  license : String := "N/A"
  dependencies : List (Option Dep) := []
  urls : List UrlEntry := []
  deriving DecidableEq, Repr

/-- The `core.py` `DownloadItem` dataclass.  The float fields (`progress`,
`speed`, `eta`) are idealized as rationals; no claim depends on float
rounding. -/
structure DownloadItem where
  download_id : String
  package_name : String
  version : String
  filename : String
  url : String
  output_path : String
  python_version : String
  platform : String
  status : DownloadStatus := .queued
  progress : ℚ := 0
  downloaded_bytes : Nat := 0
  total_bytes : Nat := 0
  speed : ℚ := 0
  eta : ℚ := 0
  error_message : String := ""
  cancelled : Bool := false
  deriving DecidableEq, Repr

/-! ### Artifact selector (`core.py` `DownloadManager._find_best_url`) -/

/-- The scoring block of `_find_best_url` (core.py lines 253-264):
substring tests on the filename, exactly as in the source. -/
def wheelScore (pyShort platform filename : String) : Nat :=
  (if platform != "any" && strContains filename platform then 100 else 0) +
  (if strContains filename ("cp" ++ pyShort) then 50
   else if strContains filename ("py" ++ pyShort) then 40
   else if strContains filename "abi3" then 30
   else if strContains filename "py3" then 20
   else 0)

/-- The platform filter of `_find_best_url` (core.py lines 239-242):
keep the wheel unless the target platform is specific and the filename
contains neither the platform string nor `-any`. -/
def platformKeep (platform filename : String) : Bool :=
  !(platform != "any" && !strContains filename platform &&
    !strContains filename "-any")

/-- The Python-version filter of `_find_best_url` (core.py lines 244-251):
if the filename has `cp<digits>` tags, one must equal the compact version
token, or the filename must contain `abi3`. -/
def pythonKeep (pyShort filename : String) : Bool :=
  let cpms := cpMatches filename
  !(!cpms.isEmpty && !cpms.any (· == pyShort) && !strContains filename "abi3")

/-- The scored candidate list built by `_find_best_url`'s loop:
wheels passing both filters, each paired with its score, in input order. -/
def eligibleCandidates (urls : List UrlEntry) (python_version platform : String) :
    List (Nat × UrlEntry) :=
  let pyShort := pyVerShort python_version
  (urls.filter (fun w => w.packagetype == "bdist_wheel")).filterMap (fun w =>
    if platformKeep platform w.filename && pythonKeep pyShort w.filename then
      some (wheelScore pyShort platform w.filename, w)
    else none)

/-- Stable insertion into a list sorted by strictly descending score:
the new element goes before the first element whose score is ≤ its own.
Together with `sortDesc` this is Python's stable
`sorted(candidates, key=lambda x: x[0], reverse=True)`. -/
def insertDesc (c : Nat × UrlEntry) : List (Nat × UrlEntry) → List (Nat × UrlEntry)
  | [] => [c]
  | d :: ds => if d.1 ≤ c.1 then c :: d :: ds else d :: insertDesc c ds

/-- Stable sort by descending score (`sorted(..., reverse=True)`). -/
def sortDesc : List (Nat × UrlEntry) → List (Nat × UrlEntry)
  | [] => []
  | c :: cs => insertDesc c (sortDesc cs)

/-- Embeds `core.py` `DownloadManager._find_best_url`: filter the artifact list to
binary wheels, apply the platform and Python-version filters, score, and
return the top of the stable descending sort (or `none`). -/
def find_best_url (urls : List UrlEntry) (python_version platform : String) :
    Option UrlEntry :=
  let wheels := urls.filter (fun w => w.packagetype == "bdist_wheel")
  if wheels.isEmpty then none
  else
    let candidates := eligibleCandidates urls python_version platform
    if candidates.isEmpty then none
    else ((sortDesc candidates).head?).map (·.2)

/-! ### Spec-side vocabulary

The following definitions are NOT taken from the source; they transcribe
the specification's words (the wheel-filename grammar
`{name}-{version}-{interpreter_tag}-{abi_tag}-{platform_tag}.ext`, the
spec's exact-tag scoring scheme, and the spec's name normalization with
`-`/`_` equivalence).  They exist only so the claims can be stated and
compared with the source-derived definitions above. -/

/-- Split a character list on `-`. -/
def splitDashAux : List Char → List Char → List String
  | [], acc => [⟨acc.reverse⟩]
  | '-' :: rest, acc => (⟨acc.reverse⟩ : String) :: splitDashAux rest []
  | c :: rest, acc => splitDashAux rest (c :: acc)

/-- Remove the final `.ext` extension segment of a filename (the text from
the last `.` on); a filename with no `.` is returned unchanged. -/
def stripExt (s : String) : String :=
  let r := s.data.reverse
  if r.contains '.' then ⟨((r.dropWhile (· != '.')).drop 1).reverse⟩ else s

/-- The `-`-separated fields of a wheel filename, extension removed,
following the spec's filename grammar. -/
def specFields (filename : String) : List String :=
  splitDashAux (stripExt filename).data []

/-- The spec's platform tag of a wheel filename: the last field. -/
def specPlatformTag (filename : String) : String :=
  (specFields filename).getLastD ""

/-- The spec's interpreter tag of a wheel filename: the third field. -/
def specInterpTag (filename : String) : String :=
  ((specFields filename).get? 2).getD ""

/-- The spec's ABI tag of a wheel filename: the fourth field. -/
def specAbiTag (filename : String) : String :=
  ((specFields filename).get? 3).getD ""

/-- The scoring scheme exactly as the claim states it: +100 for an exact
platform-tag match (not the `any` fallback); +50 for an interpreter tag
equal to `cp`+token; else +40 for the weaker `py`+token tag; else +30 for
stable-ABI (`abi3`); else +20 for the generic `py3` marker. -/
def specScore (pyShort platform filename : String) : Nat :=
  (if specPlatformTag filename = platform ∧ platform ≠ "any" then 100 else 0) +
  (if specInterpTag filename = "cp" ++ pyShort then 50
   else if specInterpTag filename = "py" ++ pyShort then 40
   else if specAbiTag filename = "abi3" then 30
   else if specInterpTag filename = "py3" then 20
   else 0)

/-- The spec's name normalization: case-insensitive and treating `-` and
`_` as equivalent (canonical form: lower case with `-` mapped to `_`). -/
def specNormalizeName (s : String) : String :=
  ⟨s.data.map (fun c => if c = '-' then '_' else c.toLower)⟩

/-! ### Download manager (`core.py` `DownloadManager`)

The filesystem is abstracted to `fs : String → Option Nat`, mapping a path
to the size of the file there (`none` = no file): `os.path.exists` is
`(fs p).isSome` and `os.path.getsize` its value.  The job map
`self.downloads` is an association list.  An operation's observable
outcome is the new job map, the list of `progress_updated` emissions, and
whether a download worker was scheduled (`started = true` iff the
operation reached `self.threadpool.start(worker)`, i.e. a network
transfer will be issued). -/

/-- The job map `self.downloads`. -/
abbrev Downloads := List (String × DownloadItem)

/-- Python dict lookup `self.downloads[id]` / `id in self.downloads`. -/
def getItem : Downloads → String → Option DownloadItem
  | [], _ => none
  | (k, v) :: tl, id => if k = id then some v else getItem tl id

/-- In-place mutation of the item stored under `id` (Python mutates the
`DownloadItem` object held in the dict). -/
def setItem : Downloads → String → DownloadItem → Downloads
  | [], _, _ => []
  | (k, v) :: tl, id, it =>
    (if k = id then (k, it) else (k, v)) :: setItem tl id it

/-- Dict assignment `self.downloads[download_id] = item`: overwrite the entry if the key
exists, otherwise append it. -/
def putItem (dl : Downloads) (id : String) (it : DownloadItem) : Downloads :=
  if (getItem dl id).isSome then setItem dl id it
  else dl ++ [(id, it)]

/-- Observable outcome of one `DownloadManager` method call. -/
structure OpResult where
  downloads : Downloads
  emits : List (String × DownloadItem)
  started : Bool
  deriving DecidableEq

/-- The body of `start_download` once the item is found
(core.py lines 299-310): short-circuit to `Completed` when the
destination file already exists, else mark `Downloading` and schedule the
worker. -/
def start_item (fs : String → Option Nat) (item : DownloadItem) :
    DownloadItem × List (String × DownloadItem) × Bool :=
  match fs item.output_path with
  | some size =>
    let item := { item with
      status := .completed, progress := 100,
      total_bytes := size, downloaded_bytes := size }
    (item, [(item.download_id, item)], false)
  | none =>
    ({ item with status := .downloading }, [], true)

/-- Embeds `core.py` `DownloadManager.start_download` (lines 296-310). -/
def start_download (fs : String → Option Nat) (dl : Downloads) (id : String) :
    OpResult :=
  match getItem dl id with
  | none => ⟨dl, [], false⟩
  | some item =>
    let r := start_item fs item
    ⟨setItem dl id r.1, r.2.1, r.2.2⟩

/-- Embeds `core.py` `DownloadManager.cancel_download` (lines 348-354): set the
cancellation flag; if the job is still queued, mark it cancelled and emit. -/
def cancel_download (dl : Downloads) (id : String) : OpResult :=
  match getItem dl id with
  | none => ⟨dl, [], false⟩
  | some item =>
    let item := { item with cancelled := true }
    if item.status = .queued then
      let item := { item with status := .cancelled }
      ⟨setItem dl id item, [(id, item)], false⟩
    else ⟨setItem dl id item, [], false⟩

/-- The field resets performed by `retry_download` when the guard passes
(core.py lines 360-366). -/
def resetItem (item : DownloadItem) : DownloadItem :=
  { item with
    status := .queued, progress := 0, downloaded_bytes := 0,
    speed := 0, eta := 0, error_message := "", cancelled := false }

/-- Embeds `core.py` `DownloadManager.retry_download` (lines 356-367): only from
`Failed`/`Cancelled`; reset the mutable fields, then re-run
`start_download`. -/
def retry_download (fs : String → Option Nat) (dl : Downloads) (id : String) :
    OpResult :=
  match getItem dl id with
  | none => ⟨dl, [], false⟩
  | some item =>
    if item.status = .failed ∨ item.status = .cancelled then
      start_download fs (setItem dl id (resetItem item)) id
    else ⟨dl, [], false⟩

/-- Evaluate `os.path.join(output_dir, filename)` for the cases arising here. -/
def pathJoin (a b : String) : String :=
  if b.data.head? = some '/' then b
  else if a = "" then b
  else if a.data.getLast? = some '/' then a ++ b
  else a ++ "/" ++ b

/-- Observable outcome of `add_to_queue`. -/
structure AddResult where
  downloads : Downloads
  emits : List (String × DownloadItem)
  started : Bool
  download_id : Option String
  deriving DecidableEq

/-- Embeds `core.py` `DownloadManager.add_to_queue` (lines 271-294): pick the
best wheel, build the job (its id derived from the wall clock, passed here
as `now`), register it and start it. -/
def add_to_queue (fs : String → Option Nat) (dl : Downloads)
    (pkg : PackageInfo) (python_version platform output_dir : String)
    (now : Nat) : AddResult :=
  match find_best_url pkg.urls python_version platform with
  | none => ⟨dl, [], false, none⟩
  | some best =>
    let id := pkg.name ++ "_" ++ pkg.version ++ "_" ++ toString now
    let item : DownloadItem :=
      { download_id := id, package_name := pkg.name, version := pkg.version,
        filename := best.filename, url := best.url,
        output_path := pathJoin output_dir best.filename,
        python_version := python_version, platform := platform }
    let dl := putItem dl id item
    let r := start_download fs dl id
    ⟨r.downloads, r.emits, r.started, some id⟩

/-! #### Worker execution (`core.py` `DownloadManager._download_task`)

The streaming HTTP transfer is abstracted to its observable outcome: a
transport error raised by `requests.get`/`raise_for_status` (before the
destination file is opened), or a content-length header plus the sequence
of chunk sizes yielded by `iter_content`.  The concurrently-set
cancellation flag is a function `flag : Nat → Bool` giving the value of
`item.cancelled` observed at loop iteration `i`; the wall clock is
`elapsed : Nat → ℚ`, the value of `time.time() - start_time` at iteration
`i`.  The task's effect on the filesystem is reported as `file`: the size
of the destination file after the task (`none` = absent or deleted). -/

/-- Outcome of the streaming HTTP GET issued by `_download_task`. -/
inductive NetResult where
  | netError (msg : String)
  | stream (contentLength : Nat) (chunks : List Nat)
  deriving DecidableEq

/-- Result of running `_download_task`. -/
structure TaskResult where
  item : DownloadItem
  file : Option Nat
  emits : List DownloadItem
  deriving DecidableEq

/-- The chunk loop of `_download_task` (core.py lines 318-337): check the
cancellation flag first; otherwise write a nonempty chunk and update the
progress fields, emitting a snapshot. `written` is the number of bytes in
the destination file so far. -/
def taskLoop (flag : Nat → Bool) (elapsed : Nat → ℚ) :
    List Nat → Nat → DownloadItem → Nat → List DownloadItem → TaskResult
  | [], _, item, written, emits =>
    let item := { item with status := .completed, progress := 100 }
    ⟨item, some written, emits ++ [item]⟩
  | c :: cs, i, item, written, emits =>
    if flag i then
      let item := { item with status := .cancelled }
      ⟨item, none, emits ++ [item]⟩
    else if c != 0 then
      let downloaded := item.downloaded_bytes + c
      let progress := if item.total_bytes > 0 then
        ((downloaded : ℚ) / (item.total_bytes : ℚ)) * 100 else item.progress
      let speed := if elapsed i > 0 then (downloaded : ℚ) / elapsed i
        else item.speed
      let eta := if speed > 0 then
        ((item.total_bytes : ℚ) - (downloaded : ℚ)) / speed else item.eta
      let item := { item with
        downloaded_bytes := downloaded, progress := progress,
        speed := speed, eta := eta }
      taskLoop flag elapsed cs (i + 1) item (written + c) (emits ++ [item])
    else
      taskLoop flag elapsed cs (i + 1) item written emits

/-- Embeds `core.py` `DownloadManager._download_task` (lines 312-346). -/
def download_task (net : NetResult) (flag : Nat → Bool) (elapsed : Nat → ℚ)
    (item : DownloadItem) : TaskResult :=
  match net with
  | .netError msg =>
    let item := { item with status := .failed, error_message := msg }
    ⟨item, none, [item]⟩
  | .stream contentLength chunks =>
    let item := { item with total_bytes := contentLength }
    taskLoop flag elapsed chunks 0 item 0 []

/-! ### Dependency resolver (`app.py` `MainWindow._resolve_work`)

The external `packaging` parser is modelled at its interface: `reqName s`
is the package name `Requirement(s).name`, namely the longest prefix of
name characters (`[A-Za-z0-9._-]`, starting alphanumeric) trimmed to end
at an alphanumeric, per the PEP 508 identifier regex; `none` models a
string on which the parse raises.  Strings whose remainder after the name
is a malformed specifier/marker are not distinguished (every requirement
string exercised by the claims is well formed).  The metadata client
`get_package_details` is a function `getDetails : String → Option
PackageInfo` (`none` = not found / transport error). -/

/-- Characters allowed inside a PEP 508 package name. -/
def nameChar (c : Char) : Bool :=
  c.isAlphanum || c == '.' || c == '_' || c == '-'

/-- Computes `Requirement(s).name` on the character list: the longest prefix of
name characters, starting alphanumeric, trimmed to end at an
alphanumeric. -/
def reqNameL (l : List Char) : Option (List Char) :=
  match l with
  | [] => none
  | c :: _ =>
    if c.isAlphanum then
      some ((l.takeWhile nameChar).reverse.dropWhile
        (fun c => !c.isAlphanum)).reverse
    else none

/-- Computes `Requirement(s).name` (external `packaging` library, at its
interface). -/
def reqName (s : String) : Option String :=
  (reqNameL s.data).map (fun l => ⟨l⟩)

/-- Computes `Requirement(s).name.lower()`, the resolver's normalized name. -/
def QNorm (s : String) : Option String :=
  (reqName s).map strLower

/-- Computes `{Requirement(p).name for p in initial_packages}`: `none` if any
initial string fails to parse (in which case the set comprehension in
`_resolve_work` raises). -/
def reqNames : List String → Option (List String)
  | [] => some []
  | p :: ps =>
    match reqName p, reqNames ps with
    | some n, some ns => some (n :: ns)
    | _, _ => none

/-- The `is_dep` computation of `_resolve_work` (app.py line 1770):
`not is_first and normalized not in {Requirement(p).name.lower() for p in
initial_packages}`.  The comprehension is only evaluated when `is_first`
is false (Python short-circuit); `none` models it raising on an
unparseable initial string. -/
def isDepFlag (initialPackages : List String) (isFirst : Bool)
    (normalized : String) : Option Bool :=
  if isFirst then some false
  else match reqNames initialPackages with
    | none => none
    | some names => some (!((names.map strLower).contains normalized))

/-- The dependency-enqueueing loop of `_resolve_work` (app.py lines
1779-1787): keep each dependency that parses, whose marker holds, and
whose lower-cased name is not yet processed; enqueue its bare name. -/
def depNames (processed : List String) (deps : List (Option Dep)) :
    List String :=
  deps.filterMap (fun d =>
    match d with
    | none => none
    | some dep =>
      if !dep.markerOk then none
      else if processed.contains (strLower dep.name) then none
      else some dep.name)

/-- The Qt events posted by `_resolve_work`, in order.  `packageStaged`
additionally records the normalized name under which the resolver
deduplicated the package (recomputed as `pkg.name.lower()` by the UI-side
consumer; carried on the event here so properties can refer to it). -/
inductive REvent where
  | statusUpdate (message : String)
  | packageStaged (normName : String) (pkg : PackageInfo) (isDep : Bool)
  | packageNotFound (name : String)
  deriving DecidableEq

/-- The work-queue loop of `_resolve_work` (app.py lines 1756-1795),
fuel-indexed: `none` means the fuel ran out before the loop ended.  A
`some` result carries the posted events and the final processed-set.  The
loop ends either normally (posting `"Resolution complete."`) or by an
uncaught parse exception, which kills the worker thread (no completion
event). -/
def resolveLoop (getDetails : String → Option PackageInfo)
    (initialPackages : List String) (includeDeps : Bool) :
    Nat → List String → List String → Bool → List REvent →
    Option (List REvent × List String)
  | 0, _, _, _, _ => none
  | _ + 1, [], processed, _, events =>
    some (events ++ [.statusUpdate "Resolution complete."], processed)
  | fuel + 1, p :: rest, processed, isFirst, events =>
    match QNorm p with
    | none => some (events, processed)
    | some normalized =>
      if processed.contains normalized then
        resolveLoop getDetails initialPackages includeDeps fuel rest
          processed isFirst events
      else
        let events := events ++ [.statusUpdate ("Resolving " ++ p ++ "...")]
        match getDetails p with
        | none =>
          resolveLoop getDetails initialPackages includeDeps fuel rest
            processed isFirst (events ++ [.packageNotFound p])
        | some pkg =>
          let processed := normalized :: processed
          match isDepFlag initialPackages isFirst normalized with
          | none => some (events, processed)
          | some isDep =>
            let events := events ++ [.packageStaged normalized pkg isDep]
            let newWork :=
              if includeDeps && !pkg.dependencies.isEmpty then
                depNames processed pkg.dependencies
              else []
            resolveLoop getDetails initialPackages includeDeps fuel
              (rest ++ newWork) processed false events

/-- Embeds `_resolve_work` itself: run the loop from the initial queue. -/
def resolve_work (getDetails : String → Option PackageInfo)
    (initialPackages : List String) (includeDeps : Bool) (fuel : Nat) :
    Option (List REvent × List String) :=
  resolveLoop getDetails initialPackages includeDeps fuel initialPackages
    [] true []

/-- Number of `packageStaged` events carrying normalized name `n`. -/
def stagedCountFor (events : List REvent) (n : String) : Nat :=
  events.countP (fun e => match e with
    | .packageStaged m _ _ => m == n
    | _ => false)

/-- Total number of `packageStaged` events. -/
def stagedTotal (events : List REvent) : Nat :=
  events.countP (fun e => match e with
    | .packageStaged _ _ _ => true
    | _ => false)

/-! ### Further specification vocabulary -/

/-- Computes `firstMax l`: the element of `l` with the largest score, the earliest
one in case of a tie.  Used to state the selection claim independently of
the sorting implementation. -/
def firstMax : List (Nat × UrlEntry) → Option (Nat × UrlEntry)
  | [] => none
  | c :: cs =>
    match firstMax cs with
    | none => some c
    | some d => if d.1 > c.1 then some d else some c

/-- The status state machine exactly as the claim states it:
`Queued → Downloading → {Completed | Failed | Cancelled}` plus the retry
edges `Failed → Queued` and `Cancelled → Queued`. -/
def specMachineEdge : DownloadStatus → DownloadStatus → Bool
  | .queued, .downloading => true
  | .downloading, .completed => true
  | .downloading, .failed => true
  | .downloading, .cancelled => true
  | .failed, .queued => true
  | .cancelled, .queued => true
  | _, _ => false

/-- The claim's machine extended with the two direct transitions the code
performs from `Queued`: straight to `Completed` (scheduling when the
destination file already exists) and straight to `Cancelled` (cancelling a
job that has not started transferring). -/
def codeMachineEdge : DownloadStatus → DownloadStatus → Bool
  | .queued, .completed => true
  | .queued, .cancelled => true
  | a, b => specMachineEdge a b

/-- Two characters that are equal up to letter case. -/
def caseVarChar (c d : Char) : Prop :=
  c = d ∨ (c.isAlpha ∧ d.isAlpha ∧ c.toLower = d.toLower)

/-- Two strings that differ only by letter case. -/
def caseVariant (s t : String) : Prop :=
  List.Forall₂ caseVarChar s.data t.data

/-! ### Concrete sample data for witnesses and counterexamples -/

/-- A sample download job. -/
def sampleItem : DownloadItem :=
  { download_id := "requests_2.31.0_1700000000000", package_name := "requests",
    version := "2.31.0", filename := "requests-2.31.0-py3-none-any.whl",
    url := "https://example.invalid/requests-2.31.0-py3-none-any.whl",
    output_path := "/tmp/out/requests-2.31.0-py3-none-any.whl",
    python_version := "3.11", platform := "any" }

/-- The sample job after a failed transfer: truncated file recorded,
error text set. -/
def failedSample : DownloadItem :=
  { sampleItem with
    status := .failed, error_message := "timeout", downloaded_bytes := 5 }

/-- The sample job after a completed transfer. -/
def doneSample : DownloadItem :=
  { sampleItem with
    status := .completed, downloaded_bytes := 9, total_bytes := 9 }

/-- The sample job while downloading. -/
def downloadingSample : DownloadItem :=
  { sampleItem with status := .downloading }

/-- A filesystem holding a 7-byte file at the sample job's destination. -/
def fsSample7 : String → Option Nat :=
  fun p => if p = sampleItem.output_path then some 7 else none

/-- A manylinux-only binary wheel. -/
def wheelManylinux : UrlEntry :=
  ⟨"pkg-1.0.0-cp311-cp311-manylinux2014_x86_64.whl",
   "https://example.invalid/m.whl", "bdist_wheel"⟩

/-- A binary wheel whose platform tag is `manylinux2014_x86_64` but whose
package name contains the text `win_amd64`. -/
def wheelNameTrick : UrlEntry :=
  ⟨"win_amd64_tools-1.0-py3-none-manylinux2014_x86_64.whl",
   "https://example.invalid/t.whl", "bdist_wheel"⟩

/-- A universal-platform wheel of a package whose name contains the text
`win_amd64`, with an exact-interpreter tag. -/
def wheelCpAny : UrlEntry :=
  ⟨"win_amd64_tools-1.0-cp311-cp311-any.whl",
   "https://example.invalid/a.whl", "bdist_wheel"⟩

/-- A wheel with an exact `win_amd64` platform tag and a `py311`
interpreter tag. -/
def wheelPyWin : UrlEntry :=
  ⟨"pkg-1.0-py311-none-win_amd64.whl",
   "https://example.invalid/w.whl", "bdist_wheel"⟩

/-- A sample package offering one universal wheel. -/
def samplePkgW : PackageInfo :=
  { name := "pkg", version := "1.0.0", description := "",
    urls := [⟨"pkg-1.0.0-py3-none-any.whl",
             "https://example.invalid/p.whl", "bdist_wheel"⟩] }

/-- A package with the given name, version 1.0 and the given parsed
dependencies. -/
def simplePkg (n : String) (deps : List (Option Dep) := []) : PackageInfo :=
  { name := n, version := "1.0", description := "", dependencies := deps }

/-- A metadata client for which every name resolves, with no
dependencies. -/
def gdEcho : String → Option PackageInfo := fun s => some (simplePkg s)

/-- A metadata client where `foo-bar` depends on `foo_bar`. -/
def gdSep : String → Option PackageInfo := fun s =>
  if s = "foo-bar" then some (simplePkg "foo-bar" [some ⟨"foo_bar", true⟩])
  else if s = "foo_bar" then some (simplePkg "foo_bar")
  else none

/-- The diamond: `A` depends on `B` and `C`, `B` depends on `C`. -/
def gdDiamond : String → Option PackageInfo := fun s =>
  if s = "A" then some (simplePkg "A" [some ⟨"B", true⟩, some ⟨"C", true⟩])
  else if s = "B" then some (simplePkg "B" [some ⟨"C", true⟩])
  else if s = "C" then some (simplePkg "C")
  else none

/-! ### Association-list helper lemmas -/

theorem getItem_setItem_self (id : String) (it : DownloadItem) :
    ∀ dl : Downloads, getItem dl id ≠ none →
      getItem (setItem dl id it) id = some it := by
  intro dl
  induction dl with
  | nil => intro h; exact absurd rfl h
  | cons kv tl ih =>
    obtain ⟨k, v⟩ := kv
    intro h
    simp only [setItem]
    by_cases hk : k = id
    · rw [if_pos hk]
      simp only [getItem, if_pos hk]
    · rw [if_neg hk]
      simp only [getItem, if_neg hk] at h ⊢
      exact ih h

theorem getItem_setItem_ne (id id' : String) (it : DownloadItem)
    (hne : id' ≠ id) :
    ∀ dl : Downloads, getItem (setItem dl id it) id' = getItem dl id' := by
  intro dl
  induction dl with
  | nil => rfl
  | cons kv tl ih =>
    obtain ⟨k, v⟩ := kv
    simp only [setItem]
    by_cases hk : k = id
    · rw [if_pos hk]
      have h1 : ¬(k = id') := fun he => hne (he ▸ hk)
      simp only [getItem, if_neg h1]
      exact ih
    · rw [if_neg hk]
      simp only [getItem]
      by_cases h3 : k = id'
      · rw [if_pos h3, if_pos h3]
      · rw [if_neg h3, if_neg h3]
        exact ih

theorem getItem_putItem_self (dl : Downloads) (id : String)
    (it : DownloadItem) : getItem (putItem dl id it) id = some it := by
  unfold putItem
  by_cases h : (getItem dl id).isSome
  · simp only [h, if_pos]
    exact getItem_setItem_self id it dl (by
      intro hn; rw [hn] at h; simp at h)
  · rw [if_neg h]
    induction dl with
    | nil => simp [getItem]
    | cons kv tl ih =>
      obtain ⟨k, v⟩ := kv
      by_cases hk : k = id
      · rw [hk] at h; simp [getItem] at h
      · simp only [getItem, if_neg hk] at h
        simp only [List.cons_append, getItem, if_neg hk]
        exact ih h

/-! ### C10 — unknown job ids are no-ops -/

/-- C10: For every job id not present in the Download Manager's job map,
calling `start_download`, `cancel_download` or `retry_download` with that
id leaves the job map unchanged, emits no progress callback and schedules
no worker. -/
theorem c10_missing_id_noop (fs : String → Option Nat) (dl : Downloads)
    (id : String) (h : getItem dl id = none) :
    start_download fs dl id = ⟨dl, [], false⟩ ∧
    cancel_download dl id = ⟨dl, [], false⟩ ∧
    retry_download fs dl id = ⟨dl, [], false⟩ := by
  refine ⟨?_, ?_, ?_⟩ <;>
    simp [start_download, cancel_download, retry_download, h]

/-- Witness for C10 at a concrete one-job map and an absent id. -/
theorem c10_missing_id_noop_witness :
    start_download (fun _ => none) [("a", sampleItem)] "b"
        = ⟨[("a", sampleItem)], [], false⟩ ∧
    cancel_download [("a", sampleItem)] "b"
        = ⟨[("a", sampleItem)], [], false⟩ ∧
    retry_download (fun _ => none) [("a", sampleItem)] "b"
        = ⟨[("a", sampleItem)], [], false⟩ :=
  c10_missing_id_noop (fun _ => none) [("a", sampleItem)] "b" (by rfl)

/-! ### C4 — enqueueing an already-downloaded artifact -/

/-- C4: Whenever `add_to_queue` selects an artifact whose computed
destination path already holds a file of size `n`, the new job goes
straight to `Completed` with `downloaded_bytes = total_bytes = n`, exactly
one progress callback fires, and no download worker is scheduled (no
network transfer is issued). -/
theorem c4_existing_file_completes (fs : String → Option Nat)
    (dl : Downloads) (pkg : PackageInfo) (pv pl dir : String) (now : Nat)
    (best : UrlEntry) (n : Nat)
    (hbest : find_best_url pkg.urls pv pl = some best)
    (hfs : fs (pathJoin dir best.filename) = some n) :
    ∃ id item,
      (add_to_queue fs dl pkg pv pl dir now).download_id = some id ∧
      (add_to_queue fs dl pkg pv pl dir now).emits = [(id, item)] ∧
      getItem (add_to_queue fs dl pkg pv pl dir now).downloads id
          = some item ∧
      item.status = .completed ∧
      item.downloaded_bytes = n ∧ item.total_bytes = n ∧
      (add_to_queue fs dl pkg pv pl dir now).started = false := by
  unfold add_to_queue
  rw [hbest]
  simp only
  set id := pkg.name ++ "_" ++ pkg.version ++ "_" ++ toString now with hid
  set item0 : DownloadItem :=
    { download_id := id, package_name := pkg.name, version := pkg.version,
      filename := best.filename, url := best.url,
      output_path := pathJoin dir best.filename,
      python_version := pv, platform := pl } with hitem0
  have hlook : getItem (putItem dl id item0) id = some item0 :=
    getItem_putItem_self dl id item0
  unfold start_download
  rw [hlook]
  simp only [start_item]
  rw [hfs]
  simp only
  refine ⟨id,
    { download_id := id, package_name := pkg.name, version := pkg.version,
      filename := best.filename, url := best.url,
      output_path := pathJoin dir best.filename,
      python_version := pv, platform := pl,
      status := .completed, progress := 100,
      downloaded_bytes := n, total_bytes := n },
    ?_⟩
  refine ⟨rfl, rfl, ?_, rfl, rfl, rfl, trivial⟩
  exact getItem_setItem_self id _ (putItem dl id item0)
    (by rw [hlook]; exact fun hx => Option.noConfusion hx)

/-- Witness for C4: a concrete enqueue over a filesystem already holding
the artifact (size 12345). -/
theorem c4_existing_file_completes_witness :
    ∃ id item,
      (add_to_queue (fun _ => some 12345) [] samplePkgW "3.11" "any" "/out" 7
        ).download_id = some id ∧
      (add_to_queue (fun _ => some 12345) [] samplePkgW "3.11" "any" "/out" 7
        ).emits = [(id, item)] ∧
      getItem (add_to_queue (fun _ => some 12345) [] samplePkgW "3.11" "any"
        "/out" 7).downloads id = some item ∧
      item.status = .completed ∧
      item.downloaded_bytes = 12345 ∧ item.total_bytes = 12345 ∧
      (add_to_queue (fun _ => some 12345) [] samplePkgW "3.11" "any" "/out" 7
        ).started = false :=
  c4_existing_file_completes (fun _ => some 12345) [] samplePkgW "3.11" "any"
    "/out" 7
    ⟨"pkg-1.0.0-py3-none-any.whl", "https://example.invalid/p.whl",
      "bdist_wheel"⟩
    12345 (by rfl) (by rfl)

/-! ### C5 — retry -/

/-- C5 counterexample: the claim says `retry` on a `Failed` job resets
transferred bytes to 0 and re-enters `Downloading`; but when the
destination file already exists (the normal situation after a failure
mid-transfer, since truncated files are not deleted), the re-invoked
scheduling step short-circuits and the job lands in `Completed` with
transferred bytes equal to the file size (7 here), not 0. -/
theorem c5_retry_counterexample :
    (getItem (retry_download fsSample7 [("j", failedSample)] "j").downloads
        "j").map (fun it => (it.status, it.downloaded_bytes))
      = some (DownloadStatus.completed, 7) ∧
    (getItem (retry_download fsSample7 [("j", failedSample)] "j").downloads
        "j").map DownloadItem.status ≠ some DownloadStatus.downloading := by
  constructor
  · rfl
  · intro h
    exact Option.noConfusion h (fun he => DownloadStatus.noConfusion he)

/-- C5 (amended): `retry` on a `Failed` job resets transferred bytes,
error text and the cancellation flag and re-invokes the scheduling step;
the job re-enters `Downloading` (with a worker scheduled) provided the
destination file does not already exist.  And `retry` is only valid from
`Failed`/`Cancelled`: on any other status it is a no-op. -/
theorem c5_retry_amended :
    (∀ (fs : String → Option Nat) (dl : Downloads) (id : String)
        (item : DownloadItem),
      getItem dl id = some item → item.status = .failed →
      fs item.output_path = none →
      retry_download fs dl id =
        ⟨setItem (setItem dl id (resetItem item)) id
            { resetItem item with status := .downloading }, [], true⟩ ∧
      ({ resetItem item with status := .downloading }).downloaded_bytes = 0 ∧
      ({ resetItem item with status := .downloading }).error_message = "" ∧
      ({ resetItem item with status := .downloading }).cancelled = false ∧
      ({ resetItem item with status := .downloading }).status
          = .downloading) ∧
    (∀ (fs : String → Option Nat) (dl : Downloads) (id : String)
        (item : DownloadItem),
      getItem dl id = some item →
      item.status ≠ .failed → item.status ≠ .cancelled →
      retry_download fs dl id = ⟨dl, [], false⟩) := by
  constructor
  · intro fs dl id item h hst hfs
    unfold retry_download
    rw [h]
    simp only
    rw [if_pos (Or.inl hst)]
    unfold start_download
    rw [getItem_setItem_self id (resetItem item) dl
      (by rw [h]; exact fun hx => Option.noConfusion hx)]
    simp only [start_item]
    rw [show fs (resetItem item).output_path = none from hfs]
    refine ⟨?_, ?_, ?_, ?_, ?_⟩ <;> first | rfl | trivial
  · intro fs dl id item h h1 h2
    unfold retry_download
    rw [h]
    simp only
    rw [if_neg (fun hor => hor.elim h1 h2)]

/-- Witness for C5 at concrete jobs: a failed job with no destination file
re-enters `Downloading`; a completed job is untouched by `retry`. -/
theorem c5_retry_amended_witness :
    (retry_download (fun _ => none) [("j", failedSample)] "j" =
        ⟨[("j", { resetItem failedSample with status := .downloading })],
          [], true⟩) ∧
    (retry_download (fun _ => none) [("j", doneSample)] "j"
        = ⟨[("j", doneSample)], [], false⟩) :=
  ⟨(c5_retry_amended.1 (fun _ => none) [("j", failedSample)] "j"
      failedSample rfl rfl rfl).1,
   c5_retry_amended.2 (fun _ => none) [("j", doneSample)] "j" doneSample rfl
     (by decide) (by decide)⟩

/-! ### C6 — cancellation -/

/-- If the cancellation flag reads true at some iteration the chunk loop
will reach, the loop ends `Cancelled` with the destination file deleted. -/
theorem taskLoop_flag_cancels (flag : Nat → Bool) (elapsed : Nat → ℚ) :
    ∀ (chunks : List Nat) (i : Nat) (item : DownloadItem) (written : Nat)
      (emits : List DownloadItem),
      (∃ j, i ≤ j ∧ j < i + chunks.length ∧ flag j = true) →
      (taskLoop flag elapsed chunks i item written emits).item.status
          = .cancelled ∧
      (taskLoop flag elapsed chunks i item written emits).file = none := by
  intro chunks
  induction chunks with
  | nil =>
    rintro i item written emits ⟨j, hij, hlt, -⟩
    simp only [List.length_nil, Nat.add_zero] at hlt
    omega
  | cons c cs ih =>
    rintro i item written emits ⟨j, hij, hlt, hfl⟩
    by_cases hfi : flag i = true
    · simp only [taskLoop, hfi, if_pos]
      refine ⟨?_, ?_⟩ <;> first | rfl | trivial
    · have hj1 : i + 1 ≤ j := by
        rcases Nat.lt_or_ge i j with hx | hx
        · omega
        · have : j = i := by omega
          rw [this] at hfl
          exact absurd hfl hfi
      have hj2 : j < (i + 1) + cs.length := by
        simp only [List.length_cons] at hlt
        omega
      simp only [taskLoop, hfi, Bool.false_eq_true, if_neg,
        not_false_eq_true]
      by_cases hc : (c != 0) = true
      · rw [if_pos hc]
        exact ih (i + 1) _ (written + c) _ ⟨j, hj1, hj2, hfl⟩
      · rw [if_neg hc]
        exact ih (i + 1) item written emits ⟨j, hj1, hj2, hfl⟩

/-- C6: cancelling a still-`Queued` job immediately marks it `Cancelled`
(cancellation flag set, one callback, no worker and hence no file ever
written); and once the flag is observed by a downloading worker — which
happens before any further chunk is written — the worker deletes the
partial destination file and ends the job `Cancelled`. -/
theorem c6_cancel_behavior :
    (∀ (dl : Downloads) (id : String) (item : DownloadItem),
      getItem dl id = some item → item.status = .queued →
      cancel_download dl id =
        ⟨setItem dl id { item with cancelled := true, status := .cancelled },
          [(id, { item with cancelled := true, status := .cancelled })],
          false⟩) ∧
    (∀ (contentLength : Nat) (chunks : List Nat) (flag : Nat → Bool)
        (elapsed : Nat → ℚ) (item : DownloadItem),
      item.status = .downloading →
      (∃ i, i < chunks.length ∧ flag i = true) →
      (download_task (.stream contentLength chunks) flag elapsed item
        ).item.status = .cancelled ∧
      (download_task (.stream contentLength chunks) flag elapsed item
        ).file = none) := by
  constructor
  · intro dl id item h hq
    unfold cancel_download
    rw [h]
    simp only
    rw [if_pos hq]
  · rintro contentLength chunks flag elapsed item - ⟨i, hi, hfl⟩
    unfold download_task
    simp only
    exact taskLoop_flag_cancels flag elapsed chunks 0 _ 0 []
      ⟨i, Nat.zero_le i, by omega, hfl⟩

/-- Witness for C6: a queued sample job is cancelled in place; a
3-chunk transfer whose flag rises from iteration 1 on ends `Cancelled`
with the file removed. -/
theorem c6_cancel_behavior_witness :
    (cancel_download [("j", sampleItem)] "j" =
      ⟨[("j", { sampleItem with cancelled := true, status := .cancelled })],
        [("j", { sampleItem with cancelled := true, status := .cancelled })],
        false⟩) ∧
    ((download_task (.stream 10 [4, 4, 2]) (fun i => decide (1 ≤ i))
        (fun _ => 1) downloadingSample).item.status = .cancelled ∧
      (download_task (.stream 10 [4, 4, 2]) (fun i => decide (1 ≤ i))
        (fun _ => 1) downloadingSample).file = none) :=
  ⟨c6_cancel_behavior.1 [("j", sampleItem)] "j" sampleItem rfl rfl,
   c6_cancel_behavior.2 10 [4, 4, 2] (fun i => decide (1 ≤ i)) (fun _ => 1)
     downloadingSample rfl ⟨1, by decide, by decide⟩⟩

/-! ### C7 — the status state machine -/

/-- The chunk loop can only end `Completed` or `Cancelled`. -/
theorem taskLoop_terminal (flag : Nat → Bool) (elapsed : Nat → ℚ) :
    ∀ (chunks : List Nat) (i : Nat) (item : DownloadItem) (written : Nat)
      (emits : List DownloadItem),
      (taskLoop flag elapsed chunks i item written emits).item.status
          = .completed ∨
      (taskLoop flag elapsed chunks i item written emits).item.status
          = .cancelled := by
  intro chunks
  induction chunks with
  | nil => intro i item written emits; exact Or.inl rfl
  | cons c cs ih =>
    intro i item written emits
    by_cases hfi : flag i = true
    · simp only [taskLoop, hfi, if_pos]
      exact Or.inr (by first | rfl | trivial)
    · simp only [taskLoop, hfi, Bool.false_eq_true, if_neg,
        not_false_eq_true]
      by_cases hc : (c != 0) = true
      · rw [if_pos hc]; exact ih (i + 1) _ (written + c) _
      · rw [if_neg hc]; exact ih (i + 1) item written emits

/-- C7 counterexample: the claim's machine has no edge
`Queued → Completed`, but scheduling a queued job whose destination file
already exists moves it straight to `Completed`. -/
theorem c7_counterexample :
    sampleItem.status = .queued ∧
    (start_item (fun _ => some 7) sampleItem).1.status = .completed ∧
    specMachineEdge .queued .completed = false :=
  ⟨rfl, rfl, rfl⟩

/-- C7 (amended): every status change performed by the manager follows
the machine `Queued → Downloading → {Completed | Failed | Cancelled}`
with retry edges `Failed → Queued` and `Cancelled → Queued`, extended by
the two direct code transitions `Queued → Completed` (scheduling with the
destination file already present) and `Queued → Cancelled` (cancel before
the transfer starts); `Completed` is terminal — retry leaves it
untouched. -/
theorem c7_machine_amended :
    (∀ (fs : String → Option Nat) (item : DownloadItem),
      item.status = .queued →
      codeMachineEdge item.status (start_item fs item).1.status = true) ∧
    (∀ (net : NetResult) (flag : Nat → Bool) (elapsed : Nat → ℚ)
        (item : DownloadItem),
      codeMachineEdge .downloading
        (download_task net flag elapsed item).item.status = true) ∧
    (∀ (dl : Downloads) (id : String) (item it' : DownloadItem),
      getItem dl id = some item →
      getItem (cancel_download dl id).downloads id = some it' →
      it'.status = item.status ∨
        (item.status = .queued ∧
          codeMachineEdge item.status it'.status = true)) ∧
    (∀ (fs : String → Option Nat) (dl : Downloads) (id : String)
        (item : DownloadItem),
      getItem dl id = some item →
      item.status ≠ .failed → item.status ≠ .cancelled →
      retry_download fs dl id = ⟨dl, [], false⟩) ∧
    (∀ (fs : String → Option Nat) (dl : Downloads) (id : String)
        (item it' : DownloadItem),
      getItem dl id = some item →
      (item.status = .failed ∨ item.status = .cancelled) →
      specMachineEdge item.status .queued = true ∧
      (getItem (retry_download fs dl id).downloads id = some it' →
        codeMachineEdge .queued it'.status = true)) := by
  refine ⟨?_, ?_, ?_, ?_, ?_⟩
  · intro fs item hq
    rw [hq]
    unfold start_item
    cases hfs : fs item.output_path
    · rfl
    · rfl
  · intro net flag elapsed item
    cases net with
    | netError msg => rfl
    | stream contentLength chunks =>
      unfold download_task
      simp only
      rcases taskLoop_terminal flag elapsed chunks 0
          { item with total_bytes := contentLength } 0 [] with hx | hx
      · rw [hx]; rfl
      · rw [hx]; rfl
  · intro dl id item it' h h2
    unfold cancel_download at h2
    rw [h] at h2
    simp only at h2
    by_cases hq : item.status = .queued
    · rw [if_pos hq] at h2
      rw [getItem_setItem_self id _ dl
        (by rw [h]; exact fun hx => Option.noConfusion hx)] at h2
      cases h2
      refine Or.inr ⟨hq, ?_⟩
      rw [hq]
      rfl
    · rw [if_neg hq] at h2
      rw [getItem_setItem_self id _ dl
        (by rw [h]; exact fun hx => Option.noConfusion hx)] at h2
      cases h2
      exact Or.inl rfl
  · intro fs dl id item h h1 h2
    unfold retry_download
    rw [h]
    simp only
    rw [if_neg (fun hor => hor.elim h1 h2)]
  · intro fs dl id item it' h hor
    constructor
    · rcases hor with hx | hx <;> rw [hx] <;> rfl
    · intro h2
      unfold retry_download at h2
      rw [h] at h2
      simp only at h2
      rw [if_pos hor] at h2
      unfold start_download at h2
      rw [getItem_setItem_self id (resetItem item) dl
        (by rw [h]; exact fun hx => Option.noConfusion hx)] at h2
      simp only [start_item] at h2
      cases hfs : fs (resetItem item).output_path with
      | none =>
        rw [hfs] at h2
        simp only at h2
        rw [getItem_setItem_self id _ (setItem dl id (resetItem item))
          (by rw [getItem_setItem_self id (resetItem item) dl
                (by rw [h]; exact fun hx => Option.noConfusion hx)]
              exact fun hx => Option.noConfusion hx)] at h2
        cases h2
        rfl
      | some size =>
        rw [hfs] at h2
        simp only at h2
        rw [getItem_setItem_self id _ (setItem dl id (resetItem item))
          (by rw [getItem_setItem_self id (resetItem item) dl
                (by rw [h]; exact fun hx => Option.noConfusion hx)]
              exact fun hx => Option.noConfusion hx)] at h2
        cases h2
        rfl

/-- Witness for C7 at concrete jobs: scheduling a queued job with no file
present (edge to `Downloading`), a failing transfer (edge to `Failed`),
cancelling a queued job, retry ignoring a completed job, and retry on a
failed job re-entering via `Queued`. -/
theorem c7_machine_amended_witness :
    codeMachineEdge sampleItem.status
        (start_item (fun _ => none) sampleItem).1.status = true ∧
    codeMachineEdge .downloading
        (download_task (.netError "boom") (fun _ => false) (fun _ => 0)
          downloadingSample).item.status = true ∧
    ((getItem (cancel_download [("j", sampleItem)] "j").downloads "j"
        ).map DownloadItem.status = some .cancelled) ∧
    retry_download (fun _ => none) [("j", doneSample)] "j"
        = ⟨[("j", doneSample)], [], false⟩ ∧
    specMachineEdge failedSample.status .queued = true := by
  refine ⟨?_, ?_, ?_, ?_, ?_⟩
  · exact c7_machine_amended.1 (fun _ => none) sampleItem rfl
  · exact c7_machine_amended.2.1 (.netError "boom") (fun _ => false)
      (fun _ => 0) downloadingSample
  · rfl
  · exact c7_machine_amended.2.2.2.1 (fun _ => none) [("j", doneSample)]
      "j" doneSample rfl (by decide) (by decide)
  · exact (c7_machine_amended.2.2.2.2 (fun _ => none) [("j", failedSample)]
      "j" failedSample failedSample rfl (Or.inl rfl)).1

/-! ### C2 — the platform filter -/

theorem mem_insertDesc (c x : Nat × UrlEntry) :
    ∀ l, x ∈ insertDesc c l → x = c ∨ x ∈ l := by
  intro l
  induction l with
  | nil =>
    intro hx
    simp only [insertDesc, List.mem_singleton] at hx
    exact Or.inl hx
  | cons d ds ih =>
    intro hx
    unfold insertDesc at hx
    by_cases hle : d.1 ≤ c.1
    · rw [if_pos hle] at hx
      rcases List.mem_cons.mp hx with h | h
      · exact Or.inl h
      · exact Or.inr h
    · rw [if_neg hle] at hx
      rcases List.mem_cons.mp hx with h | h
      · exact Or.inr (h ▸ List.mem_cons_self d ds)
      · rcases ih h with h' | h'
        · exact Or.inl h'
        · exact Or.inr (List.mem_cons_of_mem d h')

theorem mem_sortDesc (x : Nat × UrlEntry) :
    ∀ l, x ∈ sortDesc l → x ∈ l := by
  intro l
  induction l with
  | nil => intro hx; exact hx
  | cons c cs ih =>
    intro hx
    rcases mem_insertDesc c x (sortDesc cs) hx with h | h
    · exact h ▸ List.mem_cons_self c cs
    · exact List.mem_cons_of_mem c (ih h)

theorem mem_of_head?_eq {α : Type} {l : List α} {a : α}
    (h : l.head? = some a) : a ∈ l := by
  cases l with
  | nil => exact Option.noConfusion h
  | cons b bs =>
    simp only [List.head?] at h
    cases h
    exact List.mem_cons_self _ _

/-- C2 (amended): with a specific target platform, `_find_best_url` only
returns a wheel whose *filename contains* the target platform string or
the text `-any` (the code tests substrings of the whole filename, not the
parsed platform tag); in particular a lone manylinux wheel is rejected
for a win_amd64 target, and with no binary-wheel candidates at all the
result is `None`. -/
theorem c2_platform_filter_amended :
    (∀ (urls : List UrlEntry) (pv pl : String) (w : UrlEntry),
      pl ≠ "any" → find_best_url urls pv pl = some w →
      strContains w.filename pl = true ∨
        strContains w.filename "-any" = true) ∧
    (find_best_url [wheelManylinux] "3.11" "win_amd64" = none) ∧
    (∀ (urls : List UrlEntry) (pv pl : String),
      urls.filter (fun u => u.packagetype == "bdist_wheel") = [] →
      find_best_url urls pv pl = none) := by
  refine ⟨?_, by rfl, ?_⟩
  · intro urls pv pl w hpl hfind
    simp only [find_best_url] at hfind
    by_cases h1 : (urls.filter (fun u => u.packagetype == "bdist_wheel")).isEmpty
    · rw [if_pos h1] at hfind
      exact Option.noConfusion hfind
    · rw [if_neg h1] at hfind
      by_cases h2 : (eligibleCandidates urls pv pl).isEmpty
      · rw [if_pos h2] at hfind
        exact Option.noConfusion hfind
      · rw [if_neg h2] at hfind
        rcases Option.map_eq_some'.mp hfind with ⟨pair, hhead, hw⟩
        have hmem : pair ∈ eligibleCandidates urls pv pl :=
          mem_sortDesc pair _ (mem_of_head?_eq hhead)
        simp only [eligibleCandidates, List.mem_filterMap] at hmem
        rcases hmem with ⟨u, -, hu⟩
        by_cases hcond : (platformKeep pl u.filename &&
            pythonKeep (pyVerShort pv) u.filename) = true
        · rw [if_pos hcond] at hu
          cases hu
          have hkeep : platformKeep pl u.filename = true :=
            (Bool.and_eq_true _ _ |>.mp hcond).1
          rw [← hw]
          simp only
          have hbne : (pl != "any") = true := bne_iff_ne.mpr hpl
          cases hA : strContains u.filename pl with
          | true => exact Or.inl rfl
          | false =>
            cases hB : strContains u.filename "-any" with
            | true => exact Or.inr rfl
            | false =>
              exfalso
              unfold platformKeep at hkeep
              rw [hbne, hA, hB] at hkeep
              simp at hkeep
        · rw [if_neg hcond] at hu
          exact Option.noConfusion hu
  · intro urls pv pl hf
    simp only [find_best_url, hf]
    rfl

/-- Witness for C2: a selected wheel for a specific platform does carry
the platform text, and a candidate list with no binary wheel yields
`None`. -/
theorem c2_platform_filter_amended_witness :
    (strContains wheelPyWin.filename "win_amd64" = true ∨
      strContains wheelPyWin.filename "-any" = true) ∧
    find_best_url [⟨"pkg-1.0.0.tar.gz", "https://example.invalid/s.tar.gz",
      "sdist"⟩] "3.11" "any" = none :=
  ⟨c2_platform_filter_amended.1 [wheelPyWin] "3.11" "win_amd64" wheelPyWin
      (by decide) (by rfl),
   c2_platform_filter_amended.2.2 [⟨"pkg-1.0.0.tar.gz",
      "https://example.invalid/s.tar.gz", "sdist"⟩] "3.11" "any" (by rfl)⟩

/-- C2 counterexample: the claim promises the selected artifact's
*platform tag* equals the target or is `any`; but a wheel whose package
name merely contains the platform text is selected although its platform
tag is `manylinux2014_x86_64`, neither `win_amd64` nor `any`. -/
theorem c2_counterexample :
    find_best_url [wheelNameTrick] "3.11" "win_amd64" = some wheelNameTrick ∧
    specPlatformTag wheelNameTrick.filename = "manylinux2014_x86_64" ∧
    specPlatformTag wheelNameTrick.filename ≠ "win_amd64" ∧
    specPlatformTag wheelNameTrick.filename ≠ "any" :=
  ⟨by rfl, by rfl, by decide, by decide⟩

/-! ### C3 — scoring and selection -/

/-- The head of the stable descending sort is the earliest
maximal-score element. -/
theorem head?_sortDesc : ∀ l, (sortDesc l).head? = firstMax l := by
  intro l
  induction l with
  | nil => rfl
  | cons c cs ih =>
    simp only [sortDesc, firstMax]
    cases hs : sortDesc cs with
    | nil =>
      rw [hs] at ih
      simp only [List.head?] at ih
      rw [← ih]
      rfl
    | cons d ds =>
      rw [hs] at ih
      simp only [List.head?] at ih
      rw [← ih]
      simp only
      unfold insertDesc
      by_cases hle : d.1 ≤ c.1
      · rw [if_pos hle, if_neg (by omega : ¬ d.1 > c.1)]
        rfl
      · rw [if_neg hle, if_pos (by omega : d.1 > c.1)]
        rfl

/-- C3 (amended): `_find_best_url` returns exactly the earliest
highest-scoring candidate among those passing its two filters, under the
code's substring-based scoring `wheelScore` (+100 platform text present
and target specific; +50 `cp`+token; else +40 `py`+token; else +30
`abi3`; else +20 `py3`). -/
theorem c3_selection_amended (urls : List UrlEntry) (pv pl : String) :
    find_best_url urls pv pl =
      (firstMax (eligibleCandidates urls pv pl)).map (·.2) := by
  simp only [find_best_url]
  by_cases h1 : (urls.filter (fun u => u.packagetype == "bdist_wheel")).isEmpty
  · rw [if_pos h1]
    have he : eligibleCandidates urls pv pl = [] := by
      simp only [eligibleCandidates]
      rw [List.isEmpty_iff.mp h1]
      rfl
    rw [he]
    rfl
  · rw [if_neg h1]
    by_cases h2 : (eligibleCandidates urls pv pl).isEmpty
    · rw [if_pos h2, List.isEmpty_iff.mp h2]
      rfl
    · rw [if_neg h2, head?_sortDesc]

/-- C3 counterexample: the claim's scoring gives +100 only for an exact
platform-tag match; the code gives it for a substring hit anywhere in the
filename.  With both candidates eligible, the code selects `wheelCpAny`
(code score 150) although under the claim's scheme `wheelPyWin` scores
140 > 50 and should win. -/
theorem c3_counterexample :
    find_best_url [wheelCpAny, wheelPyWin] "3.11" "win_amd64"
        = some wheelCpAny ∧
    (eligibleCandidates [wheelCpAny, wheelPyWin] "3.11" "win_amd64").map
        (·.2) = [wheelCpAny, wheelPyWin] ∧
    specScore "311" "win_amd64" wheelPyWin.filename >
      specScore "311" "win_amd64" wheelCpAny.filename :=
  ⟨by rfl, by rfl, by decide⟩

/-! ### C1 — name normalization and deduplication -/

theorem caseVarChar_toLower {c d : Char} (h : caseVarChar c d) :
    c.toLower = d.toLower := by
  rcases h with rfl | ⟨-, -, h⟩
  · rfl
  · exact h

theorem caseVarChar_isAlphanum {c d : Char} (h : caseVarChar c d) :
    c.isAlphanum = d.isAlphanum := by
  rcases h with rfl | ⟨hc, hd, -⟩
  · rfl
  · have h1 : c.isAlphanum = true := by
      simp [Char.isAlphanum, hc]
    have h2 : d.isAlphanum = true := by
      simp [Char.isAlphanum, hd]
    rw [h1, h2]

theorem caseVarChar_nameChar {c d : Char} (h : caseVarChar c d) :
    nameChar c = nameChar d := by
  rcases h with rfl | ⟨hc, hd, -⟩
  · rfl
  · have h1 : nameChar c = true := by
      simp [nameChar, Char.isAlphanum, hc]
    have h2 : nameChar d = true := by
      simp [nameChar, Char.isAlphanum, hd]
    rw [h1, h2]

theorem forall₂_takeWhile_nameChar :
    ∀ {l₁ l₂ : List Char}, List.Forall₂ caseVarChar l₁ l₂ →
      List.Forall₂ caseVarChar (l₁.takeWhile nameChar)
        (l₂.takeWhile nameChar) := by
  intro l₁ l₂ h
  induction h with
  | nil => exact List.Forall₂.nil
  | @cons a b as bs hcd htail ih =>
    simp only [List.takeWhile_cons]
    rw [← caseVarChar_nameChar hcd]
    cases hn : nameChar a with
    | true => exact List.Forall₂.cons hcd ih
    | false => exact List.Forall₂.nil

theorem forall₂_dropWhile_notAlnum :
    ∀ {l₁ l₂ : List Char}, List.Forall₂ caseVarChar l₁ l₂ →
      List.Forall₂ caseVarChar
        (l₁.dropWhile (fun c => !c.isAlphanum))
        (l₂.dropWhile (fun c => !c.isAlphanum)) := by
  intro l₁ l₂ h
  induction h with
  | nil => exact List.Forall₂.nil
  | @cons a b as bs hcd htail ih =>
    simp only [List.dropWhile_cons]
    rw [show (!b.isAlphanum) = (!a.isAlphanum) by
      rw [caseVarChar_isAlphanum hcd]]
    cases hn : (!a.isAlphanum) with
    | true => exact ih
    | false => exact List.Forall₂.cons hcd htail

theorem forall₂_map_toLower :
    ∀ {l₁ l₂ : List Char}, List.Forall₂ caseVarChar l₁ l₂ →
      l₁.map Char.toLower = l₂.map Char.toLower := by
  intro l₁ l₂ h
  induction h with
  | nil => rfl
  | @cons a b as bs hcd htail ih =>
    simp only [List.map_cons]
    rw [caseVarChar_toLower hcd, ih]

theorem reqNameL_toLower_eq :
    ∀ {l₁ l₂ : List Char}, List.Forall₂ caseVarChar l₁ l₂ →
      (reqNameL l₁).map (List.map Char.toLower)
        = (reqNameL l₂).map (List.map Char.toLower) := by
  intro l₁ l₂ h
  cases h with
  | nil => rfl
  | @cons a b as bs hcd htail =>
    simp only [reqNameL]
    rw [show b.isAlphanum = a.isAlphanum from
      (caseVarChar_isAlphanum hcd).symm]
    cases ha : a.isAlphanum with
    | false => rfl
    | true =>
      simp only [if_true, Option.map_some']
      have h2 := forall₂_takeWhile_nameChar
        (List.Forall₂.cons hcd htail)
      have h3 := List.rel_reverse h2
      have h4 := forall₂_dropWhile_notAlnum h3
      have h5 := List.rel_reverse h4
      rw [forall₂_map_toLower h5]

/-- Appending events adds their staged counts. -/
theorem stagedCountFor_append (events more : List REvent) (n : String) :
    stagedCountFor (events ++ more) n
      = stagedCountFor events n + stagedCountFor more n :=
  List.countP_append _ events more

/-- The at-most-once invariant of the resolver loop: if the events so far
stage `n` at most once, and only if `n` is already in the processed set,
then the whole run stages `n` at most once. -/
theorem resolveLoop_staged_once (gd : String → Option PackageInfo)
    (init : List String) (incl : Bool) (n : String) :
    ∀ (fuel : Nat) (queue processed : List String) (isFirst : Bool)
      (events : List REvent) (r : List REvent × List String),
      resolveLoop gd init incl fuel queue processed isFirst events
          = some r →
      stagedCountFor events n ≤ 1 →
      (1 ≤ stagedCountFor events n → n ∈ processed) →
      stagedCountFor r.1 n ≤ 1 := by
  intro fuel
  induction fuel with
  | zero =>
    intro queue processed isFirst events r h
    exact absurd h (by simp [resolveLoop])
  | succ fuel ih =>
    intro queue processed isFirst events r h hc hp
    cases queue with
    | nil =>
      simp only [resolveLoop] at h
      cases h
      simp only [stagedCountFor_append]
      have h0 : stagedCountFor [REvent.statusUpdate "Resolution complete."]
          n = 0 := rfl
      rw [h0]
      omega
    | cons p rest =>
      simp only [resolveLoop] at h
      cases hq : QNorm p with
      | none =>
        rw [hq] at h
        simp only at h
        cases h
        exact hc
      | some normalized =>
        rw [hq] at h
        simp only at h
        by_cases hmem : processed.contains normalized = true
        · rw [if_pos hmem] at h
          exact ih rest processed isFirst events r h hc hp
        · rw [if_neg hmem] at h
          cases hg : gd p with
          | none =>
            rw [hg] at h
            simp only at h
            refine ih rest processed isFirst _ r h ?_ ?_
            · simp only [stagedCountFor_append]
              have h1 : stagedCountFor
                  [REvent.statusUpdate ("Resolving " ++ p ++ "...")] n
                  = 0 := rfl
              have h2 : stagedCountFor [REvent.packageNotFound p] n
                  = 0 := rfl
              rw [h1, h2]
              omega
            · intro hge
              simp only [stagedCountFor_append] at hge
              have h1 : stagedCountFor
                  [REvent.statusUpdate ("Resolving " ++ p ++ "...")] n
                  = 0 := rfl
              have h2 : stagedCountFor [REvent.packageNotFound p] n
                  = 0 := rfl
              rw [h1, h2] at hge
              exact hp (by omega)
          | some pkg =>
            rw [hg] at h
            simp only at h
            cases hd : isDepFlag init isFirst normalized with
            | none =>
              rw [hd] at h
              simp only at h
              cases h
              simp only [stagedCountFor_append]
              have h1 : stagedCountFor
                  [REvent.statusUpdate ("Resolving " ++ p ++ "...")] n
                  = 0 := rfl
              rw [h1]
              omega
            | some isDep =>
              rw [hd] at h
              simp only at h
              have hnotmem : normalized ∉ processed := by
                intro hx
                exact hmem (List.elem_iff.mpr hx)
              by_cases heq : normalized = n
              · have hzero : stagedCountFor events n = 0 := by
                  by_contra hnz
                  have : 1 ≤ stagedCountFor events n := by omega
                  exact hnotmem (heq ▸ hp this)
                refine ih (rest ++ _) (normalized :: processed) false _ r
                  h ?_ ?_
                · simp only [stagedCountFor_append, hzero]
                  have h1 : stagedCountFor
                      [REvent.statusUpdate ("Resolving " ++ p ++ "...")] n
                      = 0 := rfl
                  have h2 : stagedCountFor
                      [REvent.packageStaged normalized pkg isDep] n
                      = 1 := by
                    simp [stagedCountFor, List.countP_cons, heq]
                  rw [h1, h2]
                · intro _
                  exact heq ▸ List.mem_cons_self normalized processed
              · refine ih (rest ++ _) (normalized :: processed) false _ r
                  h ?_ ?_
                · simp only [stagedCountFor_append]
                  have h1 : stagedCountFor
                      [REvent.statusUpdate ("Resolving " ++ p ++ "...")] n
                      = 0 := rfl
                  have h2 : stagedCountFor
                      [REvent.packageStaged normalized pkg isDep] n
                      = 0 := by
                    simp [stagedCountFor, List.countP_cons, heq]
                  rw [h1, h2]
                  omega
                · intro hge
                  simp only [stagedCountFor_append] at hge
                  have h1 : stagedCountFor
                      [REvent.statusUpdate ("Resolving " ++ p ++ "...")] n
                      = 0 := rfl
                  have h2 : stagedCountFor
                      [REvent.packageStaged normalized pkg isDep] n
                      = 0 := by
                    simp [stagedCountFor, List.countP_cons, heq]
                  rw [h1, h2] at hge
                  exact List.mem_cons_of_mem normalized (hp (by omega))

/-- C1 (amended): the resolver's normalization identifies two requirement
strings whose names differ only by letter case (`-`/`_` interchange is
NOT identified — see the counterexample), and within one resolution run
each normalized name is staged at most once. -/
theorem c1_case_normalization_amended :
    (∀ s t : String, caseVariant s t → QNorm s = QNorm t) ∧
    (∀ (gd : String → Option PackageInfo) (init : List String)
        (incl : Bool) (fuel : Nat) (r : List REvent × List String)
        (n : String),
      resolve_work gd init incl fuel = some r →
      stagedCountFor r.1 n ≤ 1) := by
  constructor
  · intro s t h
    have hx := reqNameL_toLower_eq h
    unfold QNorm reqName strLower
    cases h1 : reqNameL s.data with
    | none =>
      cases h2 : reqNameL t.data with
      | none => rfl
      | some m2 =>
        rw [h1, h2] at hx
        exact Option.noConfusion hx
    | some m1 =>
      cases h2 : reqNameL t.data with
      | none =>
        rw [h1, h2] at hx
        exact Option.noConfusion hx
      | some m2 =>
        rw [h1, h2] at hx
        simp only [Option.map_some'] at hx ⊢
        exact congrArg (fun l => some (String.mk l))
          (Option.some.inj hx)
  · intro gd init incl fuel r n h
    exact resolveLoop_staged_once gd init incl n fuel init [] true [] r h
      (by simp [stagedCountFor]) (by intro hx; simp [stagedCountFor] at hx)

/-- Witness for C1: `Foo` and `foo` normalize identically, and a run
seeded with `Pillow` and `pillow` stages the name once. -/
theorem c1_case_normalization_amended_witness :
    QNorm "Foo" = QNorm "foo" ∧
    stagedCountFor [REvent.statusUpdate "Resolving Pillow...",
      REvent.packageStaged "pillow" (simplePkg "Pillow") false,
      REvent.statusUpdate "Resolution complete."] "pillow" ≤ 1 :=
  ⟨c1_case_normalization_amended.1 "Foo" "foo"
    (List.Forall₂.cons (Or.inr (by decide))
      (List.Forall₂.cons (Or.inl rfl)
        (List.Forall₂.cons (Or.inl rfl) List.Forall₂.nil))),
   c1_case_normalization_amended.2 gdEcho ["Pillow", "pillow"] true 10
     ([REvent.statusUpdate "Resolving Pillow...",
       REvent.packageStaged "pillow" (simplePkg "Pillow") false,
       REvent.statusUpdate "Resolution complete."], ["pillow"]) "pillow"
     (by rfl)⟩

/-- C1 counterexample: `Foo_Bar` and `foo-bar` differ only by case and a
`-`/`_` interchange (their spec-normalized forms coincide), yet the code
normalizes them to different names (`.lower()` only) and one run resolves
and stages both. -/
theorem c1_counterexample :
    specNormalizeName "Foo_Bar" = specNormalizeName "foo-bar" ∧
    QNorm "Foo_Bar" ≠ QNorm "foo-bar" ∧
    (resolve_work gdEcho ["Foo_Bar", "foo-bar"] true 10).map
        (fun r => stagedTotal r.1) = some 2 :=
  ⟨by decide, by decide, by rfl⟩

/-! ### C8 — the `is_dependency` flag -/

theorem reqNames_mem :
    ∀ {l names : List String}, reqNames l = some names →
      ∀ p ∈ l, ∃ m ∈ names, reqName p = some m := by
  intro l
  induction l with
  | nil => intro names _ p hp; cases hp
  | cons q qs ih =>
    intro names h p hp
    unfold reqNames at h
    cases hrq : reqName q with
    | none => rw [hrq] at h; exact Option.noConfusion h
    | some nq =>
      cases hrs : reqNames qs with
      | none =>
        rw [hrq, hrs] at h
        exact Option.noConfusion h
      | some ns =>
        rw [hrq, hrs] at h
        simp only at h
        cases h
        rcases List.mem_cons.mp hp with rfl | hp'
        · exact ⟨nq, List.mem_cons_self nq ns, hrq⟩
        · rcases ih hrs p hp' with ⟨m, hm, hr⟩
          exact ⟨m, List.mem_cons_of_mem nq hm, hr⟩

/-- The `is_dep` invariant of the resolver loop: while `is_first` still
holds every queue entry is an initial requirement string, and every
staged event not already present on entry carries
`isDep = false ↔ its normalized name is an initial normalized name`. -/
theorem resolveLoop_isDep (gd : String → Option PackageInfo)
    (init : List String) (incl : Bool) (names : List String)
    (hnames : reqNames init = some names) :
    ∀ (fuel : Nat) (queue processed : List String) (isFirst : Bool)
      (events : List REvent) (r : List REvent × List String),
      (isFirst = true → ∀ p ∈ queue, p ∈ init) →
      resolveLoop gd init incl fuel queue processed isFirst events
          = some r →
      ∀ (nm : String) (pkg : PackageInfo) (d : Bool),
        REvent.packageStaged nm pkg d ∈ r.1 →
        REvent.packageStaged nm pkg d ∈ events ∨
          (d = false ↔ nm ∈ names.map strLower) := by
  intro fuel
  induction fuel with
  | zero =>
    intro queue processed isFirst events r _ h
    exact absurd h (by simp [resolveLoop])
  | succ fuel ih =>
    intro queue processed isFirst events r hsub h nm pkg d hmem
    cases queue with
    | nil =>
      simp only [resolveLoop] at h
      cases h
      rcases List.mem_append.mp hmem with hin | hin
      · exact Or.inl hin
      · simp only [List.mem_singleton] at hin
        exact absurd hin (by intro hx; exact REvent.noConfusion hx)
    | cons p rest =>
      simp only [resolveLoop] at h
      cases hQ : QNorm p with
      | none =>
        rw [hQ] at h
        simp only at h
        cases h
        exact Or.inl hmem
      | some normalized =>
        rw [hQ] at h
        simp only at h
        by_cases hc : processed.contains normalized = true
        · rw [if_pos hc] at h
          exact ih rest processed isFirst events r
            (fun hf p' hp' => hsub hf p' (List.mem_cons_of_mem p hp'))
            h nm pkg d hmem
        · rw [if_neg hc] at h
          cases hg : gd p with
          | none =>
            rw [hg] at h
            simp only at h
            rcases ih rest processed isFirst _ r
                (fun hf p' hp' => hsub hf p' (List.mem_cons_of_mem p hp'))
                h nm pkg d hmem with hin | hiff
            · rcases List.mem_append.mp hin with hin' | hin'
              · rcases List.mem_append.mp hin' with hin'' | hin''
                · exact Or.inl hin''
                · simp only [List.mem_singleton] at hin''
                  exact absurd hin'' (by intro hx; exact REvent.noConfusion hx)
              · simp only [List.mem_singleton] at hin'
                exact absurd hin' (by intro hx; exact REvent.noConfusion hx)
            · exact Or.inr hiff
          | some pkg' =>
            rw [hg] at h
            simp only at h
            cases hd : isDepFlag init isFirst normalized with
            | none =>
              rw [hd] at h
              simp only at h
              cases h
              rcases List.mem_append.mp hmem with hin | hin
              · exact Or.inl hin
              · simp only [List.mem_singleton] at hin
                exact absurd hin (by intro hx; exact REvent.noConfusion hx)
            | some isDep =>
              rw [hd] at h
              simp only at h
              have hiff : isDep = false ↔ normalized ∈ names.map strLower := by
                unfold isDepFlag at hd
                cases hf : isFirst with
                | true =>
                  rw [hf] at hd
                  simp only [if_true] at hd
                  cases hd
                  have hpinit : p ∈ init :=
                    hsub hf p (List.mem_cons_self p rest)
                  rcases reqNames_mem hnames p hpinit with ⟨m, hmn, hrm⟩
                  have : normalized = strLower m := by
                    unfold QNorm at hQ
                    rw [hrm] at hQ
                    exact (Option.some.inj hQ).symm
                  rw [this]
                  simp only [true_iff]
                  exact List.mem_map_of_mem strLower hmn
                | false =>
                  rw [hf] at hd
                  simp only [Bool.false_eq_true, if_false, hnames] at hd
                  cases hd
                  constructor
                  · intro hx
                    have : (names.map strLower).contains normalized = true := by
                      cases hy : (names.map strLower).contains normalized with
                      | true => rfl
                      | false => rw [hy] at hx; exact absurd hx (by decide)
                    exact List.elem_iff.mp this
                  · intro hx
                    have hy : (names.map strLower).contains normalized
                        = true := List.elem_iff.mpr hx
                    rw [hy]
                    rfl
              rcases ih (rest ++ _) (normalized :: processed) false _ r
                  (fun hf => absurd hf (by decide))
                  h nm pkg d hmem with hin | hx
              · rcases List.mem_append.mp hin with hin' | hin'
                · rcases List.mem_append.mp hin' with hin'' | hin''
                  · exact Or.inl hin''
                  · simp only [List.mem_singleton] at hin''
                    exact absurd hin'' (by intro hx; exact REvent.noConfusion hx)
                · simp only [List.mem_singleton] at hin'
                  cases hin'
                  exact Or.inr hiff
              · exact Or.inr hx

/-- C8 (amended): a staged package carries `is_dependency = false` exactly
when the normalized (lower-cased) name under which it was resolved equals
the lower-cased parsed name of one of the initial requirement strings —
case-insensitively only, with no `-`/`_` identification; and the diamond
`{A}, A → {B, C}, B → {C}` stages `C` exactly once, as a dependency,
with `A` not a dependency. -/
theorem c8_is_dependency_amended :
    (∀ (gd : String → Option PackageInfo) (init : List String)
        (incl : Bool) (fuel : Nat) (names : List String)
        (r : List REvent × List String),
      reqNames init = some names →
      resolve_work gd init incl fuel = some r →
      ∀ (nm : String) (pkg : PackageInfo) (d : Bool),
        REvent.packageStaged nm pkg d ∈ r.1 →
        (d = false ↔ nm ∈ names.map strLower)) ∧
    ((resolve_work gdDiamond ["A"] true 10).map (·.1) = some
      [REvent.statusUpdate "Resolving A...",
       REvent.packageStaged "a"
         (simplePkg "A" [some ⟨"B", true⟩, some ⟨"C", true⟩]) false,
       REvent.statusUpdate "Resolving B...",
       REvent.packageStaged "b" (simplePkg "B" [some ⟨"C", true⟩]) true,
       REvent.statusUpdate "Resolving C...",
       REvent.packageStaged "c" (simplePkg "C") true,
       REvent.statusUpdate "Resolution complete."] ∧
     (resolve_work gdDiamond ["A"] true 10).map
       (fun r => stagedCountFor r.1 "c") = some 1) := by
  constructor
  · intro gd init incl fuel names r hnames hrun nm pkg d hmem
    rcases resolveLoop_isDep gd init incl names hnames fuel init [] true []
        r (fun _ p hp => hp) hrun nm pkg d hmem with hin | hiff
    · cases hin
    · exact hiff
  · exact ⟨by rfl, by rfl⟩

/-- Witness for C8: in the diamond run, the staged event for `C` carries
`is_dependency = true`, consistent with `c` not being an initial name. -/
theorem c8_is_dependency_amended_witness :
    (true = false ↔ "c" ∈ (["A"].map strLower)) :=
  c8_is_dependency_amended.1 gdDiamond ["A"] true 10 ["A"]
    ([REvent.statusUpdate "Resolving A...",
      REvent.packageStaged "a"
        (simplePkg "A" [some ⟨"B", true⟩, some ⟨"C", true⟩]) false,
      REvent.statusUpdate "Resolving B...",
      REvent.packageStaged "b" (simplePkg "B" [some ⟨"C", true⟩]) true,
      REvent.statusUpdate "Resolving C...",
      REvent.packageStaged "c" (simplePkg "C") true,
      REvent.statusUpdate "Resolution complete."], ["c", "b", "a"])
    (by rfl) (by rfl) "c" (simplePkg "C") true (by simp)

/-- C8 counterexample: `foo_bar` matches the initial name `foo-bar` up to
`-`/`_` interchange (their spec-normalized forms coincide), yet it is
staged with `is_dependency = true` — the claimed separator-insensitive
matching does not happen in the code. -/
theorem c8_counterexample :
    specNormalizeName "foo_bar" = specNormalizeName "foo-bar" ∧
    (resolve_work gdSep ["foo-bar"] true 10).map (·.1) = some
      [REvent.statusUpdate "Resolving foo-bar...",
       REvent.packageStaged "foo-bar"
         (simplePkg "foo-bar" [some ⟨"foo_bar", true⟩]) false,
       REvent.statusUpdate "Resolving foo_bar...",
       REvent.packageStaged "foo_bar" (simplePkg "foo_bar") true,
       REvent.statusUpdate "Resolution complete."] :=
  ⟨by decide, by rfl⟩

/-! ### C9 — termination of the work-queue loop -/

/-- A member of `depNames` is the name of a parsed, marker-passing
dependency. -/
theorem mem_depNames {processed : List String} {deps : List (Option Dep)}
    {q : String} (h : q ∈ depNames processed deps) :
    ∃ dep : Dep, some dep ∈ deps ∧ dep.markerOk = true ∧ q = dep.name := by
  unfold depNames at h
  rcases List.mem_filterMap.mp h with ⟨d, hd, hf⟩
  cases d with
  | none => simp at hf
  | some dep =>
    simp only at hf
    by_cases hm : (!dep.markerOk) = true
    · rw [if_pos hm] at hf
      exact Option.noConfusion hf
    · rw [if_neg hm] at hf
      by_cases hc : processed.contains (strLower dep.name) = true
      · rw [if_pos hc] at hf
        exact Option.noConfusion hf
      · rw [if_neg hc] at hf
        cases hf
        refine ⟨dep, hd, ?_, rfl⟩
        cases hmo : dep.markerOk with
        | false => rw [hmo] at hm; simp at hm
        | true => rfl

/-- Growing the processed set never lengthens the unprocessed remainder
of `R`. -/
theorem filter_not_contains_mono (x : String) (processed : List String) :
    ∀ R : List String,
      (R.filter (fun m => !(x :: processed).contains m)).length
        ≤ (R.filter (fun m => !processed.contains m)).length := by
  intro R
  induction R with
  | nil => exact Nat.le_refl 0
  | cons a as ih =>
    simp only [List.filter_cons]
    by_cases h1 : (!(x :: processed).contains a) = true
    · have h2 : (!processed.contains a) = true := by
        cases hp : processed.contains a with
        | false => rfl
        | true =>
          exfalso
          rw [List.contains_cons, hp] at h1
          simp at h1
      rw [if_pos h1, if_pos h2]
      simp only [List.length_cons]
      exact Nat.succ_le_succ ih
    · rw [if_neg h1]
      by_cases h2 : (!processed.contains a) = true
      · rw [if_pos h2]
        simp only [List.length_cons]
        exact Nat.le_succ_of_le ih
      · rw [if_neg h2]
        exact ih

/-- Processing a fresh member of `R` strictly shrinks the unprocessed
remainder of `R`. -/
theorem filter_not_contains_lt (x : String) (processed : List String)
    (hnot : x ∉ processed) :
    ∀ R : List String, x ∈ R →
      (R.filter (fun m => !(x :: processed).contains m)).length
        < (R.filter (fun m => !processed.contains m)).length := by
  intro R hx
  induction R with
  | nil => cases hx
  | cons a as ih =>
    simp only [List.filter_cons]
    by_cases hax : a = x
    · subst hax
      have hn1 : ¬((!(a :: processed).contains a) = true) := by
        rw [List.contains_cons]
        simp
      have h2 : (!processed.contains a) = true := by
        cases hp : processed.contains a with
        | false => rfl
        | true => exact absurd (List.elem_iff.mp hp) hnot
      rw [if_neg hn1, if_pos h2]
      simp only [List.length_cons]
      exact Nat.lt_succ_of_le (filter_not_contains_mono a processed as)
    · have hx' : x ∈ as := by
        rcases List.mem_cons.mp hx with h | h
        · exact absurd h.symm hax
        · exact h
      have hcc : (x :: processed).contains a = processed.contains a := by
        rw [List.contains_cons,
          show (a == x) = false from beq_eq_false_iff_ne.mpr hax]
        rfl
      rw [hcc]
      by_cases h2 : (!processed.contains a) = true
      · rw [if_pos h2, if_pos h2]
        simp only [List.length_cons]
        exact Nat.succ_lt_succ (ih hx')
      · rw [if_neg h2, if_neg h2]
        exact ih hx'

/-- The work-queue loop of `_resolve_work` terminates whenever the
normalized names reachable through the metadata client stay inside a
finite set `R`: some fuel makes the loop return.  Strong induction on the
number of members of `R` not yet processed, with an inner induction on
the queue (the processed-set only grows, and strictly on each successful
resolution). -/
theorem resolveLoop_terminates_aux (gd : String → Option PackageInfo)
    (init : List String) (incl : Bool) (R : List String)
    (hclosed : ∀ (s m : String) (pkg : PackageInfo),
      QNorm s = some m → m ∈ R → gd s = some pkg →
      ∀ d ∈ pkg.dependencies, ∀ dep : Dep, d = some dep →
        dep.markerOk = true →
        ∀ m', QNorm dep.name = some m' → m' ∈ R) :
    ∀ (k : Nat) (queue processed : List String) (isFirst : Bool)
      (events : List REvent),
      (R.filter (fun m => !processed.contains m)).length ≤ k →
      (∀ p ∈ queue, ∀ m, QNorm p = some m → m ∈ R) →
      ∃ fuel r,
        resolveLoop gd init incl fuel queue processed isFirst events
          = some r := by
  intro k
  induction k using Nat.strong_induction_on with
  | _ k ihk =>
    intro queue
    induction queue with
    | nil =>
      intro processed isFirst events _ _
      exact ⟨1, _, rfl⟩
    | cons p rest ihq =>
      intro processed isFirst events hk hq
      cases hQ : QNorm p with
      | none =>
        refine ⟨1, (events, processed), ?_⟩
        simp only [resolveLoop, hQ]
      | some normalized =>
        by_cases hc : processed.contains normalized = true
        · obtain ⟨fuel, r, hr⟩ := ihq processed isFirst events hk
            (fun q hqq => hq q (List.mem_cons_of_mem p hqq))
          refine ⟨fuel + 1, r, ?_⟩
          simp only [resolveLoop, hQ]
          rw [if_pos hc]
          exact hr
        · cases hg : gd p with
          | none =>
            obtain ⟨fuel, r, hr⟩ := ihq processed isFirst
              (events ++ [.statusUpdate ("Resolving " ++ p ++ "...")]
                ++ [.packageNotFound p]) hk
              (fun q hqq => hq q (List.mem_cons_of_mem p hqq))
            refine ⟨fuel + 1, r, ?_⟩
            simp only [resolveLoop, hQ]
            rw [if_neg hc, hg]
            exact hr
          | some pkg =>
            cases hd : isDepFlag init isFirst normalized with
            | none =>
              refine ⟨1, (events ++
                [.statusUpdate ("Resolving " ++ p ++ "...")],
                normalized :: processed), ?_⟩
              simp only [resolveLoop, hQ]
              rw [if_neg hc, hg, hd]
            | some isDep =>
              have hnR : normalized ∈ R :=
                hq p (List.mem_cons_self p rest) normalized hQ
              have hnotm : normalized ∉ processed :=
                fun hx => hc (List.elem_iff.mpr hx)
              have hklt : (R.filter
                  (fun m => !(normalized :: processed).contains m)).length
                  < k :=
                Nat.lt_of_lt_of_le
                  (filter_not_contains_lt normalized processed hnotm R hnR)
                  hk
              have hsub : ∀ q ∈ rest ++
                  (if (incl && !pkg.dependencies.isEmpty) = true then
                    depNames (normalized :: processed) pkg.dependencies
                  else []), ∀ m, QNorm q = some m → m ∈ R := by
                intro q hqq m hm
                rcases List.mem_append.mp hqq with hq1 | hq2
                · exact hq q (List.mem_cons_of_mem p hq1) m hm
                · by_cases hif : (incl && !pkg.dependencies.isEmpty) = true
                  · rw [if_pos hif] at hq2
                    rcases mem_depNames hq2 with ⟨dep, hdmem, hdok, rfl⟩
                    exact hclosed p normalized pkg hQ hnR hg _ hdmem dep
                      rfl hdok m hm
                  · rw [if_neg hif] at hq2
                    cases hq2
              obtain ⟨fuel, r, hr⟩ := ihk _ hklt
                (rest ++
                  (if (incl && !pkg.dependencies.isEmpty) = true then
                    depNames (normalized :: processed) pkg.dependencies
                  else []))
                (normalized :: processed) false
                (events ++ [.statusUpdate ("Resolving " ++ p ++ "...")]
                  ++ [.packageStaged normalized pkg isDep])
                (Nat.le_refl _) hsub
              refine ⟨fuel + 1, r, ?_⟩
              simp only [resolveLoop, hQ]
              rw [if_neg hc, hg, hd]
              exact hr

/-- C9: for every metadata client whose reachable normalized names stay
inside a finite set `R` (every dependency graph reachable from the
initial requirements), the resolver's work-queue loop terminates — some
fuel suffices for `resolve_work` to return. -/
theorem c9_work_queue_terminates (gd : String → Option PackageInfo)
    (init : List String) (incl : Bool) (R : List String)
    (hinit : ∀ p ∈ init, ∀ m, QNorm p = some m → m ∈ R)
    (hclosed : ∀ (s m : String) (pkg : PackageInfo),
      QNorm s = some m → m ∈ R → gd s = some pkg →
      ∀ d ∈ pkg.dependencies, ∀ dep : Dep, d = some dep →
        dep.markerOk = true →
        ∀ m', QNorm dep.name = some m' → m' ∈ R) :
    ∃ fuel r, resolve_work gd init incl fuel = some r := by
  unfold resolve_work
  exact resolveLoop_terminates_aux gd init incl R hclosed
    (R.filter (fun m => !([] : List String).contains m)).length init [] true
    [] (Nat.le_refl _) hinit

/-- Witness for C9: a concrete client (nothing resolves) over the initial
list `["a"]` with `R = ["a"]`. -/
theorem c9_work_queue_terminates_witness :
    ∃ fuel r, resolve_work (fun _ => none) ["a"] true fuel = some r :=
  c9_work_queue_terminates (fun _ => none) ["a"] true ["a"]
    (by
      intro p hp m hm
      simp only [List.mem_singleton] at hp
      subst hp
      have h2 : QNorm "a" = some "a" := by rfl
      rw [List.mem_singleton]
      exact (Option.some.inj (h2.symm.trans hm)).symm)
    (by intro s m pkg _ _ hgd; exact Option.noConfusion hgd)

end LocalPip
